import Mathlib

/-!
# Verification of NovaBar's wlr-toplevel tracking module

Shallow embedding of `src/wayland/wlr-toplevel.c`: the per-toplevel listener
state machine (title/app_id/state/done/closed handlers), the registry of
toplevel records (intrusive list `toplevels`), the connection lifecycle
(`wlr_toplevel_init` / `wlr_toplevel_cleanup`) and the non-blocking read
protocol (`wlr_toplevel_read_events`).

C pointers to protocol objects are modelled as natural-number identities;
the Wayland library calls are modelled at their interface boundary and every
resource-releasing library call (`free`, `*_destroy`, `wl_display_disconnect`)
is recorded as an explicit effect in a trace, so that double-release is the
statement "the same effect occurs twice in the trace".  Listener callbacks
are only ever invoked by the Wayland dispatcher on live proxy objects, so
the event-delivery step functions gate per-object events on the presence of
a live record for the event's identity.
-/

namespace NovaBar

/-- `ZWLR_FOREIGN_TOPLEVEL_HANDLE_V1_STATE_ACTIVATED` from the generated
protocol header (enum value 2 in wlr-foreign-toplevel-management-unstable-v1). -/
def STATE_ACTIVATED : Nat := 2

/-- `struct toplevel_handle` (wlr-toplevel.c lines 34-40).  The `handle`
field is the protocol object reference, modelled as an abstract identity;
`next` is implicit in the list structure of the registry. -/
structure ToplevelRecord where
  handle : Nat
  app_id : Option String
  title : Option String
  focused : Bool
  deriving Repr, DecidableEq

/-- Observable effects of the module: resource releases (`free`,
`*_destroy`, `wl_display_disconnect`) keyed by the identity of the object
released, plus Notification Sink invocations (`simple_callback(app_id,
title, focused)`).  `free(NULL)` is a no-op in C and emits no effect. -/
inductive Eff where
  /-- `free(t->app_id)` on a non-NULL pointer of record `rid`. -/
  | freeAppId (rid : Nat)
  /-- `free(t->title)` on a non-NULL pointer of record `rid`. -/
  | freeTitle (rid : Nat)
  /-- `zwlr_foreign_toplevel_handle_v1_destroy` of record `rid`'s proxy. -/
  | destroyHandle (rid : Nat)
  /-- `free(t)` of the record struct itself. -/
  | freeRecord (rid : Nat)
  /-- `zwlr_foreign_toplevel_manager_v1_destroy` of manager `mid`. -/
  | destroyManager (mid : Nat)
  /-- `wl_registry_destroy` of registry `gid`. -/
  | destroyRegistry (gid : Nat)
  /-- `wl_display_disconnect`. -/
  | disconnect
  /-- `simple_callback(app_id, title, focused)`. -/
  | notify (app_id : String) (title : String) (focused : Bool)
  deriving Repr, DecidableEq

/-- `toplevel_handle_title` (lines 44-49): free the old owned text, then
store an owned copy of the new value (NULL stays NULL). -/
def toplevel_handle_title (t : ToplevelRecord) (v : Option String) :
    ToplevelRecord × List Eff :=
  ({ t with title := v }, if t.title.isSome then [.freeTitle t.handle] else [])

/-- `toplevel_handle_app_id` (lines 51-56): same replace-wholesale semantics
as the title handler. -/
def toplevel_handle_app_id (t : ToplevelRecord) (v : Option String) :
    ToplevelRecord × List Eff :=
  ({ t with app_id := v }, if t.app_id.isSome then [.freeAppId t.handle] else [])

/-- Whether the state array contains the activated flag: the
`wl_array_for_each` loop of lines 65-71 (break at first hit is `List.any`). -/
def activatedIn (st : List Nat) : Bool :=
  st.any (· == STATE_ACTIVATED)

/-- `toplevel_handle_state` (lines 58-77): recompute `focused` from the
state array; on a rising edge with the callback slot set, invoke the
Notification Sink synchronously with the current fields (empty string for
NULL) and `t->focused`, which is 1 at that point.  `cb` is whether
`simple_callback` is non-NULL. -/
def toplevel_handle_state (cb : Bool) (t : ToplevelRecord) (st : List Nat) :
    ToplevelRecord × List Eff :=
  let was_focused := t.focused
  let t' := { t with focused := activatedIn st }
  if t'.focused && !was_focused && cb then
    (t', [.notify (t.app_id.getD "") (t.title.getD "") true])
  else
    (t', [])

/-- `toplevel_handle_done` (lines 79-82): intentionally inert. -/
def toplevel_handle_done (t : ToplevelRecord) : ToplevelRecord × List Eff :=
  (t, [])

/-- The removal loop of `toplevel_handle_closed` (lines 89-96): unlink the
first list node equal to `t` (identities are the listener data pointers, so
pointer equality is identity equality) and stop. -/
def removeFirst : List ToplevelRecord → Nat → List ToplevelRecord
  | [], _ => []
  | r :: rs, id => if r.handle == id then rs else r :: removeFirst rs id

/-- The releases performed by `toplevel_handle_closed` after unlinking
(lines 98-101): free both owned strings, destroy the proxy, free the
record. -/
def closeEffects (t : ToplevelRecord) : List Eff :=
  (if t.app_id.isSome then [.freeAppId t.handle] else []) ++
  (if t.title.isSome then [.freeTitle t.handle] else []) ++
  [.destroyHandle t.handle, .freeRecord t.handle]

/-- The connection-local state of the `wl_display` the module talks to,
modelled at the libwayland interface boundary: `pendingLocal` counts events
sitting in the local default queue (what `wl_display_prepare_read` checks
and `wl_display_dispatch_pending` drains), `prepared` is an outstanding
read intent, `dataAvailable` is the readability of the connection's
descriptor (what `poll` with a zero timeout reports). -/
structure ConnState where
  pendingLocal : Nat
  prepared : Bool
  dataAvailable : Bool
  deriving Repr, DecidableEq

/-- The module's process-wide static state (wlr-toplevel.c lines 18-42):
`display`, `registry`, `toplevel_manager`, the intrusive list `toplevels`
and the `simple_callback` slot.  `nextId` is the allocator for fresh
protocol object identities: each `toplevel` announcement carries a brand
new proxy object, so announced identities are globally fresh. -/
structure ModuleState where
  display : Option ConnState
  registry : Option Nat
  toplevel_manager : Option Nat
  toplevels : List ToplevelRecord
  nextId : Nat
  simple_callback : Bool
  deriving Repr, DecidableEq

/-- The static state before any call: all pointers NULL, empty list. -/
def initialState : ModuleState :=
  { display := none, registry := none, toplevel_manager := none,
    toplevels := [], nextId := 0, simple_callback := false }

/-- Replace the first record whose identity is `id` (the record the
dispatcher's listener-data pointer designates) by its mutated version. -/
def replaceFirst : List ToplevelRecord → Nat → ToplevelRecord → List ToplevelRecord
  | [], _, _ => []
  | r :: rs, id, t' => if r.handle == id then t' :: rs else r :: replaceFirst rs id t'

/-- Deliver a per-object event to the record with identity `id`: the
Wayland dispatcher invokes the listener only when a live proxy for `id`
exists, with the record as listener data. -/
def deliver (s : ModuleState) (id : Nat)
    (f : ToplevelRecord → ToplevelRecord × List Eff) : ModuleState × List Eff :=
  match s.toplevels.find? (·.handle == id) with
  | none => (s, [])
  | some t =>
    let (t', effs) := f t
    ({ s with toplevels := replaceFirst s.toplevels id t' }, effs)

/-- `toplevel_handle_closed` (lines 84-102) as delivered by the dispatcher:
unlink the record from `toplevels`, free its owned strings, destroy the
proxy, free the record.  A `closed` for an identity with no live proxy is
not deliverable (the proxy was already destroyed). -/
def toplevel_handle_closed (s : ModuleState) (id : Nat) : ModuleState × List Eff :=
  match s.toplevels.find? (·.handle == id) with
  | none => (s, [])
  | some t => ({ s with toplevels := removeFirst s.toplevels id }, closeEffects t)

/-- The wire events the toplevel manager and its toplevel objects can
deliver to this module.  `announced` is the manager's `toplevel` event
(it creates a fresh proxy, so it carries no pre-existing identity). -/
inductive WlEvent where
  | announced
  | titleEv (id : Nat) (v : Option String)
  | appIdEv (id : Nat) (v : Option String)
  | stateEv (id : Nat) (st : List Nat)
  | doneEv (id : Nat)
  | closedEv (id : Nat)
  deriving Repr, DecidableEq

/-- `toplevel_manager_handle_toplevel` (lines 127-136): `calloc` a record
(all fields zero: NULL strings, not focused), point it at the fresh proxy,
push it on the front of `toplevels`, attach the listener. -/
def toplevel_manager_handle_toplevel (s : ModuleState) : ModuleState × List Eff :=
  let t : ToplevelRecord :=
    { handle := s.nextId, app_id := none, title := none, focused := false }
  ({ s with toplevels := t :: s.toplevels, nextId := s.nextId + 1 }, [])

/-- One dispatched event. -/
def stepEvent (s : ModuleState) : WlEvent → ModuleState × List Eff
  | .announced => toplevel_manager_handle_toplevel s
  | .titleEv id v => deliver s id (fun t => toplevel_handle_title t v)
  | .appIdEv id v => deliver s id (fun t => toplevel_handle_app_id t v)
  | .stateEv id st => deliver s id (fun t => toplevel_handle_state s.simple_callback t st)
  | .doneEv id => deliver s id toplevel_handle_done
  | .closedEv id => toplevel_handle_closed s id

/-- Dispatch a whole sequence of events, concatenating the effect traces. -/
def runEvents (s : ModuleState) : List WlEvent → ModuleState × List Eff
  | [] => (s, [])
  | e :: es =>
    let (s1, tr1) := stepEvent s e
    let (s2, tr2) := runEvents s1 es
    (s2, tr1 ++ tr2)

/-- Environment of one `wlr_toplevel_init` call: whether
`wl_display_connect` succeeds, whether the compositor advertises the
foreign-toplevel-management global during the first round-trip, and the
identities of the objects handed out by the library. -/
structure InitWorld where
  connectOk : Bool
  managerGlobal : Bool
  conn0 : ConnState
  registryId : Nat
  managerId : Nat
  deriving Repr, DecidableEq

/-- `wlr_toplevel_init` (lines 169-188).  The first round-trip runs
`registry_handle_global` for each advertised global, binding the manager
iff the compositor advertises it (lines 149-157).  On the no-manager
failure path the code destroys the registry and disconnects, resets
`display` to NULL — but leaves the static `registry` pointer unchanged.
The second round-trip's initial toplevel burst is outside this model (the
claims about it run `runEvents` separately). -/
def wlr_toplevel_init (s : ModuleState) (w : InitWorld) :
    Bool × ModuleState × List Eff :=
  if w.connectOk then
    let s1 := { s with display := some w.conn0, registry := some w.registryId }
    let s2 := if w.managerGlobal
      then { s1 with toplevel_manager := some w.managerId } else s1
    if s2.toplevel_manager = none then
      (false, { s2 with display := none },
       [.destroyRegistry w.registryId, .disconnect])
    else
      (true, s2, [])
  else
    (false, { s with display := none }, [])

/-- The per-record release block of `wlr_toplevel_cleanup`'s list walk
(lines 222-231): free both strings, destroy the proxy if set, free the
record.  Records always have their proxy set (creation stores it), so the
`if (t->handle)` guard is always taken. -/
def cleanupRecordEffects (t : ToplevelRecord) : List Eff :=
  (if t.app_id.isSome then [.freeAppId t.handle] else []) ++
  (if t.title.isSome then [.freeTitle t.handle] else []) ++
  [.destroyHandle t.handle, .freeRecord t.handle]

/-- `wlr_toplevel_cleanup` (lines 220-246): walk and free every record,
then release manager, registry and display, each guarded by a NULL check
and reset to NULL afterwards. -/
def wlr_toplevel_cleanup (s : ModuleState) : ModuleState × List Eff :=
  let recordEffs := s.toplevels.flatMap cleanupRecordEffects
  let managerEffs := match s.toplevel_manager with
    | some m => [Eff.destroyManager m]
    | none => []
  let registryEffs := match s.registry with
    | some g => [Eff.destroyRegistry g]
    | none => []
  let displayEffs := match s.display with
    | some _ => [Eff.disconnect]
    | none => []
  ({ s with toplevels := [], toplevel_manager := none, registry := none,
            display := none },
   recordEffs ++ managerEffs ++ registryEffs ++ displayEffs)

/-- The libwayland calls made by the read path, tagged with what decides
whether they can block: `poll` blocks exactly when its timeout is nonzero;
`prepareRead`, `dispatchPending`, `flush`, `cancelRead` and (in this
single-threaded module, once prepared and readable) `readData` never do. -/
inductive PumpOp where
  | prepareReadOk
  | prepareReadFail
  | dispatchPending
  | flush
  | pollDescriptor (timeoutMs : Int)
  | readData
  | cancelRead
  deriving Repr, DecidableEq

/-- Which pump operations suspend the calling thread. -/
def PumpOp.isBlocking : PumpOp → Bool
  | .pollDescriptor t => t != 0
  | _ => false

/-- `wl_display_prepare_read`: succeeds (registering the read intent) iff
the local default queue is empty, otherwise fails and changes nothing. -/
def wl_display_prepare_read (c : ConnState) : Option ConnState :=
  if c.pendingLocal = 0 then some { c with prepared := true } else none

/-- `wl_display_dispatch_pending`: drain the local default queue without
reading the descriptor; never blocks. -/
def wl_display_dispatch_pending (c : ConnState) : ConnState :=
  { c with pendingLocal := 0 }

/-- The retry loop of `wlr_toplevel_read_events` (lines 204-206):
`while (wl_display_prepare_read(display) != 0) wl_display_dispatch_pending(display);`. -/
def prepareLoop (c : ConnState) : ConnState × List PumpOp :=
  if _h : c.pendingLocal = 0 then
    ({ c with prepared := true }, [.prepareReadOk])
  else
    let (c', tr) := prepareLoop (wl_display_dispatch_pending c)
    (c', .prepareReadFail :: .dispatchPending :: tr)
termination_by c.pendingLocal
decreasing_by simp [wl_display_dispatch_pending]; omega

/-- `wlr_toplevel_read_events` (lines 201-218): nothing at all when
`display` is NULL; otherwise prepare (draining local work as needed),
flush, poll the descriptor with a zero timeout, and either commit the read
and dispatch what arrived, or cancel the read intent. -/
def wlr_toplevel_read_events (s : ModuleState) : ModuleState × List PumpOp :=
  match s.display with
  | none => (s, [])
  | some c =>
    let (c1, tr1) := prepareLoop c
    if c1.dataAvailable then
      let c2 := { c1 with prepared := false, dataAvailable := false,
                          pendingLocal := 0 }
      ({ s with display := some c2 },
       tr1 ++ [.flush, .pollDescriptor 0, .readData, .dispatchPending])
    else
      ({ s with display := some { c1 with prepared := false } },
       tr1 ++ [.flush, .pollDescriptor 0, .cancelRead])

/-- The retry loop in the abstract, for a drain step `d` that is only
assumed to strictly shrink nonempty pending work: `prepareLoopIter d fuel n`
is whether the loop starting with `n` pending events exits (prepare-read
succeeds) within `fuel` iterations. -/
def prepareLoopIter (d : Nat → Nat) : Nat → Nat → Bool
  | 0, n => n = 0
  | fuel + 1, n => if n = 0 then true else prepareLoopIter d fuel (d n)

/-- The identities currently held by the registry. -/
def regHandles (s : ModuleState) : List Nat :=
  s.toplevels.map (·.handle)

/-- Sequence of `state` events delivered to one record, counting the
Notification Sink invocations (each step's effect list is either empty or
one `notify`). -/
def runStateSeq (cb : Bool) (t : ToplevelRecord) :
    List (List Nat) → ToplevelRecord × Nat
  | [] => (t, 0)
  | st :: rest =>
    let (t1, effs) := toplevel_handle_state cb t st
    let (t2, n) := runStateSeq cb t1 rest
    (t2, effs.length + n)

/-- Number of maximal runs of `true` in a boolean sequence, entered with
previous value `prev` (a run is counted at each rising edge). -/
def countRuns (prev : Bool) : List Bool → Nat
  | [] => 0
  | b :: bs => (if b && !prev then 1 else 0) + countRuns b bs

/-- Registry invariant: identities are pairwise distinct and below the
freshness counter. -/
def Inv (s : ModuleState) : Prop :=
  (regHandles s).Nodup ∧ ∀ r ∈ s.toplevels, r.handle < s.nextId

/-- Upper bound on how many times `free(record rid)` can still happen from
state `s`: once if the record is live, never again if its identity was
already consumed (it is below the freshness counter but not live), once if
the identity has not been handed out yet. -/
def freeBound (s : ModuleState) (rid : Nat) : Nat :=
  if rid ∈ regHandles s then 1 else if rid < s.nextId then 0 else 1

/-! ## Helper lemmas -/

theorem prepareLoop_eq (c : ConnState) : prepareLoop c =
    if c.pendingLocal = 0 then
      ({ c with prepared := true }, [.prepareReadOk])
    else
      ({ c with pendingLocal := 0, prepared := true },
       [.prepareReadFail, .dispatchPending, .prepareReadOk])
    := by
  rw [prepareLoop]
  split
  · rfl
  · rw [wl_display_dispatch_pending, prepareLoop]
    simp

theorem runStateSeq_eq_countRuns (cb : Bool) (sts : List (List Nat))
    (t : ToplevelRecord) (hcb : cb = true) :
    (runStateSeq cb t sts).2 = countRuns t.focused (sts.map activatedIn) := by
  subst hcb
  induction sts generalizing t with
  | nil => simp [runStateSeq, countRuns]
  | cons st rest ih =>
    simp only [runStateSeq, countRuns, List.map_cons]
    rw [toplevel_handle_state]
    by_cases hact : activatedIn st
    · by_cases hf : t.focused
      · simpa [hact, hf] using ih ⟨t.handle, t.app_id, t.title, true⟩
      · simpa [hact, hf] using ih ⟨t.handle, t.app_id, t.title, true⟩
    · simp only [Bool.not_eq_true] at hact
      simpa [hact] using ih ⟨t.handle, t.app_id, t.title, false⟩

theorem find?_handle_eq {l : List ToplevelRecord} {id : Nat} {t : ToplevelRecord}
    (h : l.find? (·.handle == id) = some t) : t.handle = id := by
  have := List.find?_some h
  simpa using this

theorem replaceFirst_map_handle (l : List ToplevelRecord) (id : Nat)
    (t' : ToplevelRecord) (h : t'.handle = id) :
    (replaceFirst l id t').map (·.handle) = l.map (·.handle) := by
  induction l with
  | nil => rfl
  | cons r rs ih =>
    rw [replaceFirst]
    by_cases hr : r.handle = id
    · simp [hr, h]
    · simp [hr, ih]

theorem replaceFirst_find?_self (l : List ToplevelRecord) (id : Nat)
    (t : ToplevelRecord) (h : l.find? (·.handle == id) = some t) :
    replaceFirst l id t = l := by
  induction l with
  | nil => simp at h
  | cons r rs ih =>
    rw [replaceFirst]
    by_cases hr : r.handle = id
    · rw [List.find?_cons_of_pos _ (by simpa using hr)] at h
      simp [hr, ← Option.some_inj.mp h]
    · rw [List.find?_cons_of_neg _ (by simpa using hr)] at h
      simp [hr, ih h]

theorem removeFirst_sublist (l : List ToplevelRecord) (id : Nat) :
    (removeFirst l id).Sublist l := by
  induction l with
  | nil => simp [removeFirst]
  | cons r rs ih =>
    rw [removeFirst]
    by_cases hr : r.handle = id
    · simp [hr]
    · simpa [hr] using ih.cons₂ r

theorem mem_removeFirst_self {l : List ToplevelRecord} {id : Nat}
    (hnd : (l.map (·.handle)).Nodup) :
    id ∉ (removeFirst l id).map (·.handle) := by
  induction l with
  | nil => simp [removeFirst]
  | cons r rs ih =>
    rw [removeFirst]
    simp only [List.map_cons, List.nodup_cons] at hnd
    by_cases hr : r.handle = id
    · rw [if_pos (by simpa using hr)]
      exact hr ▸ hnd.1
    · intro hmem
      rw [if_neg (by simpa using hr)] at hmem
      simp only [List.map_cons, List.mem_cons] at hmem
      rcases hmem with hmem | hmem
      · exact hr hmem.symm
      · exact ih hnd.2 hmem

theorem mem_removeFirst_ne {l : List ToplevelRecord} {id rid : Nat}
    (hne : rid ≠ id) :
    rid ∈ (removeFirst l id).map (·.handle) ↔ rid ∈ l.map (·.handle) := by
  induction l with
  | nil => simp [removeFirst]
  | cons r rs ih =>
    rw [removeFirst]
    by_cases hr : r.handle = id
    · rw [if_pos (by simpa using hr)]
      simp only [List.map_cons, List.mem_cons]
      constructor
      · exact fun h => Or.inr h
      · rintro (h | h)
        · exact absurd (h.trans hr) hne
        · exact h
    · rw [if_neg (by simpa using hr)]
      simp [ih]

theorem lt_nextId_of_mem_regHandles {s : ModuleState}
    (h2 : ∀ r ∈ s.toplevels, r.handle < s.nextId) {x : Nat}
    (hx : x ∈ regHandles s) : x < s.nextId := by
  simp only [regHandles, List.mem_map] at hx
  obtain ⟨r, hr, rfl⟩ := hx
  exact h2 r hr

theorem deliver_regHandles (s : ModuleState) (id : Nat)
    (f : ToplevelRecord → ToplevelRecord × List Eff)
    (hf : ∀ t, (f t).1.handle = t.handle) :
    regHandles (deliver s id f).1 = regHandles s := by
  cases hfind : s.toplevels.find? (·.handle == id) with
  | none => simp [deliver, hfind]
  | some t =>
    rcases hft : f t with ⟨t', effs⟩
    have ht' : t'.handle = id := by
      have := hf t
      rw [hft] at this
      exact this.trans (find?_handle_eq hfind)
    simp only [deliver, hfind, hft]
    simp only [regHandles]
    exact replaceFirst_map_handle _ _ _ ht'

theorem deliver_nextId (s : ModuleState) (id : Nat)
    (f : ToplevelRecord → ToplevelRecord × List Eff) :
    (deliver s id f).1.nextId = s.nextId := by
  unfold deliver
  cases hfind : s.toplevels.find? (·.handle == id) with
  | none => rfl
  | some t => rcases hft : f t with ⟨t', effs⟩; rfl

theorem deliver_inv (s : ModuleState) (id : Nat)
    (f : ToplevelRecord → ToplevelRecord × List Eff)
    (hf : ∀ t, (f t).1.handle = t.handle)
    (hinv : Inv s) : Inv (deliver s id f).1 := by
  constructor
  · rw [deliver_regHandles s id f hf]
    exact hinv.1
  · intro r hr
    have hmem : r.handle ∈ regHandles (deliver s id f).1 :=
      List.mem_map_of_mem _ hr
    rw [deliver_regHandles s id f hf] at hmem
    rw [deliver_nextId]
    exact lt_nextId_of_mem_regHandles hinv.2 hmem

theorem deliver_freeBound (s : ModuleState) (id rid : Nat)
    (f : ToplevelRecord → ToplevelRecord × List Eff)
    (hf : ∀ t, (f t).1.handle = t.handle) :
    freeBound (deliver s id f).1 rid = freeBound s rid := by
  unfold freeBound
  rw [deliver_regHandles s id f hf, deliver_nextId]

theorem deliver_count (s : ModuleState) (id : Nat) (x : Eff)
    (f : ToplevelRecord → ToplevelRecord × List Eff)
    (hfr : ∀ t, (f t).2.count x = 0) :
    (deliver s id f).2.count x = 0 := by
  cases hfind : s.toplevels.find? (·.handle == id) with
  | none => simp [deliver, hfind]
  | some t =>
    rcases hft : f t with ⟨t', effs⟩
    have := hfr t
    rw [hft] at this
    simp only [deliver, hfind, hft]
    simpa using this

theorem closeEffects_count_freeRecord (t : ToplevelRecord) (rid : Nat) :
    (closeEffects t).count (Eff.freeRecord rid) =
      if t.handle = rid then 1 else 0 := by
  rcases t with ⟨h, a, ti, f⟩
  cases a <;> cases ti <;> by_cases hr : h = rid <;>
    simp [closeEffects, List.count_append, List.count_cons, hr]

theorem stepEvent_done (s : ModuleState) (id : Nat) :
    stepEvent s (.doneEv id) = (s, []) := by
  simp only [stepEvent, deliver, toplevel_handle_done]
  cases hfind : s.toplevels.find? (·.handle == id) with
  | none => rfl
  | some t =>
    simp [replaceFirst_find?_self _ _ _ hfind]

theorem closed_removes (s : ModuleState) (rid : Nat)
    (hnd : (regHandles s).Nodup) :
    rid ∉ regHandles (stepEvent s (.closedEv rid)).1 := by
  simp only [stepEvent, toplevel_handle_closed]
  cases hfind : s.toplevels.find? (·.handle == rid) with
  | none =>
    intro hmem
    simp only [regHandles, List.mem_map] at hmem
    obtain ⟨r, hr, hrh⟩ := hmem
    have := List.find?_eq_none.mp hfind r hr
    simp [hrh] at this
  | some t =>
    exact mem_removeFirst_self hnd

theorem freeBound_le_one (s : ModuleState) (rid : Nat) : freeBound s rid ≤ 1 := by
  unfold freeBound
  split_ifs <;> omega

theorem announced_inv (s : ModuleState) (hinv : Inv s) :
    Inv (toplevel_manager_handle_toplevel s).1 := by
  obtain ⟨hnd, hlt⟩ := hinv
  constructor
  · simp only [toplevel_manager_handle_toplevel, regHandles, List.map_cons,
      List.nodup_cons]
    exact ⟨fun hmem => absurd (lt_nextId_of_mem_regHandles hlt hmem)
      (lt_irrefl _), hnd⟩
  · intro r hr
    simp only [toplevel_manager_handle_toplevel, List.mem_cons] at hr
    simp only [toplevel_manager_handle_toplevel]
    rcases hr with rfl | hr
    · exact Nat.lt_succ_self _
    · exact Nat.lt_succ_of_lt (hlt r hr)

theorem announced_freeBound (s : ModuleState) (rid : Nat) (hinv : Inv s) :
    freeBound (toplevel_manager_handle_toplevel s).1 rid ≤ freeBound s rid := by
  obtain ⟨hnd, hlt⟩ := hinv
  by_cases hmem : rid ∈ regHandles s
  · rw [show freeBound s rid = 1 from by simp [freeBound, hmem]]
    exact freeBound_le_one _ _
  · by_cases hrlt : rid < s.nextId
    · have hmem' : rid ∉ regHandles (toplevel_manager_handle_toplevel s).1 := by
        simp only [toplevel_manager_handle_toplevel, regHandles, List.map_cons,
          List.mem_cons]
        push_neg
        exact ⟨by omega, fun h => hmem h⟩
      rw [show freeBound s rid = 0 from by simp [freeBound, hmem, hrlt]]
      rw [show freeBound (toplevel_manager_handle_toplevel s).1 rid = 0 from by
        simp only [freeBound, if_neg hmem']
        rw [if_pos]
        simp only [toplevel_manager_handle_toplevel]
        omega]
    · rw [show freeBound s rid = 1 from by simp [freeBound, hmem, hrlt]]
      exact freeBound_le_one _ _

theorem closed_inv (s : ModuleState) (id : Nat) (hinv : Inv s) :
    Inv (toplevel_handle_closed s id).1 := by
  obtain ⟨hnd, hlt⟩ := hinv
  cases hfind : s.toplevels.find? (·.handle == id) with
  | none =>
    simp only [toplevel_handle_closed, hfind]
    exact ⟨hnd, hlt⟩
  | some t =>
    simp only [toplevel_handle_closed, hfind]
    constructor
    · exact hnd.sublist ((removeFirst_sublist s.toplevels id).map _)
    · intro r hr
      exact hlt r ((removeFirst_sublist s.toplevels id).subset hr)

theorem closed_bound (s : ModuleState) (id rid : Nat) (hinv : Inv s) :
    (toplevel_handle_closed s id).2.count (Eff.freeRecord rid) +
      freeBound (toplevel_handle_closed s id).1 rid ≤ freeBound s rid := by
  obtain ⟨hnd, hlt⟩ := hinv
  cases hfind : s.toplevels.find? (·.handle == id) with
  | none => simp [toplevel_handle_closed, hfind]
  | some t =>
    have htid : t.handle = id := find?_handle_eq hfind
    have htmem : t ∈ s.toplevels := List.mem_of_find?_eq_some hfind
    have hidmem : id ∈ regHandles s := by
      simp only [regHandles, List.mem_map]
      exact ⟨t, htmem, htid⟩
    simp only [toplevel_handle_closed, hfind]
    rw [closeEffects_count_freeRecord]
    by_cases hr : rid = id
    · subst hr
      rw [if_pos htid]
      have hnot : rid ∉ regHandles
          { s with toplevels := removeFirst s.toplevels rid } := by
        simp only [regHandles]
        exact mem_removeFirst_self hnd
      have hltr : rid < s.nextId := lt_nextId_of_mem_regHandles hlt hidmem
      rw [show freeBound { s with toplevels := removeFirst s.toplevels rid } rid
          = 0 from by simp [freeBound, hnot, hltr]]
      rw [show freeBound s rid = 1 from by simp [freeBound, hidmem]]
    · rw [if_neg (fun h => hr (htid ▸ h).symm)]
      have hmemiff : rid ∈ regHandles
          { s with toplevels := removeFirst s.toplevels id } ↔
          rid ∈ regHandles s := by
        simp only [regHandles]
        exact mem_removeFirst_ne hr
      simp only [freeBound, Nat.zero_add]
      by_cases hm : rid ∈ regHandles s
      · rw [if_pos (hmemiff.mpr hm), if_pos hm]
      · rw [if_neg (fun h => hm (hmemiff.mp h)), if_neg hm]

theorem title_count_freeRecord (t : ToplevelRecord) (v : Option String)
    (rid : Nat) :
    (toplevel_handle_title t v).2.count (Eff.freeRecord rid) = 0 := by
  by_cases h : t.title.isSome <;>
    simp [toplevel_handle_title, h, List.count_cons, List.count_nil]

theorem app_id_count_freeRecord (t : ToplevelRecord) (v : Option String)
    (rid : Nat) :
    (toplevel_handle_app_id t v).2.count (Eff.freeRecord rid) = 0 := by
  by_cases h : t.app_id.isSome <;>
    simp [toplevel_handle_app_id, h, List.count_cons, List.count_nil]

theorem state_count_freeRecord (cb : Bool) (t : ToplevelRecord)
    (st : List Nat) (rid : Nat) :
    (toplevel_handle_state cb t st).2.count (Eff.freeRecord rid) = 0 := by
  rw [toplevel_handle_state]
  split <;> simp [List.count_cons, List.count_nil]

theorem stepEvent_inv_bound (s : ModuleState) (e : WlEvent) (rid : Nat)
    (hinv : Inv s) :
    Inv (stepEvent s e).1 ∧
      (stepEvent s e).2.count (Eff.freeRecord rid) +
        freeBound (stepEvent s e).1 rid ≤ freeBound s rid := by
  cases e with
  | announced =>
    refine ⟨announced_inv s hinv, ?_⟩
    have h2 : (stepEvent s .announced).2 = [] := rfl
    rw [h2]
    simpa using announced_freeBound s rid hinv
  | titleEv id v =>
    have hf : ∀ t, ((fun t => toplevel_handle_title t v) t).1.handle = t.handle :=
      fun t => by simp [toplevel_handle_title]
    refine ⟨deliver_inv _ _ _ hf hinv, ?_⟩
    simp only [stepEvent]
    rw [deliver_count _ _ _ _ (fun t => title_count_freeRecord t v rid),
        deliver_freeBound _ _ _ _ hf]
    omega
  | appIdEv id v =>
    have hf : ∀ t, ((fun t => toplevel_handle_app_id t v) t).1.handle = t.handle :=
      fun t => by simp [toplevel_handle_app_id]
    refine ⟨deliver_inv _ _ _ hf hinv, ?_⟩
    simp only [stepEvent]
    rw [deliver_count _ _ _ _ (fun t => app_id_count_freeRecord t v rid),
        deliver_freeBound _ _ _ _ hf]
    omega
  | stateEv id st =>
    have hf : ∀ t,
        ((fun t => toplevel_handle_state s.simple_callback t st) t).1.handle
          = t.handle := fun t => by
      show (toplevel_handle_state s.simple_callback t st).1.handle = t.handle
      rw [toplevel_handle_state]
      split <;> rfl
    refine ⟨deliver_inv _ _ _ hf hinv, ?_⟩
    simp only [stepEvent]
    rw [deliver_count _ _ _ _
        (fun t => state_count_freeRecord s.simple_callback t st rid),
        deliver_freeBound _ _ _ _ hf]
    omega
  | doneEv id =>
    rw [stepEvent_done]
    exact ⟨hinv, by simp⟩
  | closedEv id =>
    exact ⟨closed_inv s id hinv, closed_bound s id rid hinv⟩

theorem runEvents_inv_bound (evts : List WlEvent) (s : ModuleState)
    (rid : Nat) (hinv : Inv s) :
    Inv (runEvents s evts).1 ∧
      (runEvents s evts).2.count (Eff.freeRecord rid) +
        freeBound (runEvents s evts).1 rid ≤ freeBound s rid := by
  induction evts generalizing s with
  | nil =>
    simp only [runEvents]
    exact ⟨hinv, by simp⟩
  | cons e es ih =>
    obtain ⟨hinv1, hb1⟩ := stepEvent_inv_bound s e rid hinv
    rcases hse : stepEvent s e with ⟨s1, tr1⟩
    rw [hse] at hinv1 hb1
    dsimp only at hinv1 hb1
    obtain ⟨hinv2, hb2⟩ := ih s1 hinv1
    rcases hre : runEvents s1 es with ⟨s2, tr2⟩
    rw [hre] at hinv2 hb2
    dsimp only at hinv2 hb2
    simp only [runEvents, hse, hre]
    refine ⟨hinv2, ?_⟩
    simp only [List.count_append]
    omega

theorem find?_of_mem_nodup {l : List ToplevelRecord} {t : ToplevelRecord}
    (hnd : (l.map (·.handle)).Nodup) (hmem : t ∈ l) :
    l.find? (·.handle == t.handle) = some t := by
  induction l with
  | nil => simp at hmem
  | cons r rs ih =>
    simp only [List.map_cons, List.nodup_cons] at hnd
    rcases List.mem_cons.mp hmem with rfl | hmem'
    · rw [List.find?_cons_of_pos _ (by simp)]
    · by_cases hr : r.handle = t.handle
      · exact absurd (hr ▸ List.mem_map_of_mem (·.handle) hmem') hnd.1
      · rw [List.find?_cons_of_neg _ (by simpa using hr)]
        exact ih hnd.2 hmem'

theorem mem_deliver_effects {s : ModuleState} {id : Nat}
    {f : ToplevelRecord → ToplevelRecord × List Eff} {x : Eff}
    (hx : x ∈ (deliver s id f).2) : ∃ t, x ∈ (f t).2 := by
  cases hfind : s.toplevels.find? (·.handle == id) with
  | none => simp [deliver, hfind] at hx
  | some t =>
    rcases hft : f t with ⟨t', effs⟩
    simp only [deliver, hfind, hft] at hx
    exact ⟨t, by rw [hft]; exact hx⟩

theorem handle_state_notify_args (cb : Bool) (t : ToplevelRecord)
    (st : List Nat) (a b : String) (f : Bool)
    (hmem : Eff.notify a b f ∈ (toplevel_handle_state cb t st).2) :
    a = t.app_id.getD "" ∧ b = t.title.getD "" ∧ f = true := by
  rw [toplevel_handle_state] at hmem
  split at hmem
  · simp only [List.mem_singleton, Eff.notify.injEq] at hmem
    exact ⟨hmem.1, hmem.2.1, hmem.2.2⟩
  · simp at hmem

theorem stepEvent_notify_focused (s : ModuleState) (e : WlEvent)
    (a b : String) (f : Bool)
    (hmem : Eff.notify a b f ∈ (stepEvent s e).2) : f = true := by
  cases e with
  | announced => simp [stepEvent, toplevel_manager_handle_toplevel] at hmem
  | titleEv id v =>
    obtain ⟨t, ht⟩ := mem_deliver_effects hmem
    by_cases hs : t.title.isSome <;> simp [toplevel_handle_title, hs] at ht
  | appIdEv id v =>
    obtain ⟨t, ht⟩ := mem_deliver_effects hmem
    by_cases hs : t.app_id.isSome <;> simp [toplevel_handle_app_id, hs] at ht
  | stateEv id st =>
    obtain ⟨t, ht⟩ := mem_deliver_effects hmem
    exact (handle_state_notify_args _ _ _ _ _ _ ht).2.2
  | doneEv id => rw [stepEvent_done] at hmem; simp at hmem
  | closedEv id =>
    simp only [stepEvent, toplevel_handle_closed] at hmem
    cases hfind : s.toplevels.find? (·.handle == id) with
    | none => rw [hfind] at hmem; simp at hmem
    | some t =>
      rw [hfind] at hmem
      simp only at hmem
      rcases t with ⟨h, ao, tit, fo⟩
      cases ao <;> cases tit <;> simp [closeEffects] at hmem

theorem runEvents_notify_focused (s : ModuleState) (evts : List WlEvent)
    (a b : String) (f : Bool)
    (hmem : Eff.notify a b f ∈ (runEvents s evts).2) : f = true := by
  induction evts generalizing s with
  | nil => simp [runEvents] at hmem
  | cons e es ih =>
    rcases hse : stepEvent s e with ⟨s1, tr1⟩
    rcases hre : runEvents s1 es with ⟨s2, tr2⟩
    simp only [runEvents, hse, hre, List.mem_append] at hmem
    rcases hmem with hmem | hmem
    · exact stepEvent_notify_focused s e a b f (by rw [hse]; exact hmem)
    · exact ih s1 (by rw [hre]; exact hmem)

theorem cleanupRecordEffects_eq_closeEffects (t : ToplevelRecord) :
    cleanupRecordEffects t = closeEffects t := rfl

theorem count_flatMap_cleanup_zero (l : List ToplevelRecord) (rid : Nat)
    (h : ∀ t ∈ l, t.handle ≠ rid) :
    (l.flatMap cleanupRecordEffects).count (Eff.freeRecord rid) = 0 := by
  induction l with
  | nil => simp
  | cons r rs ih =>
    rw [List.flatMap_cons, List.count_append,
        cleanupRecordEffects_eq_closeEffects, closeEffects_count_freeRecord,
        if_neg (h r (List.mem_cons_self r rs)),
        ih (fun t ht => h t (List.mem_cons_of_mem r ht))]

theorem count_flatMap_cleanup_le_one (l : List ToplevelRecord) (rid : Nat)
    (hnd : (l.map (·.handle)).Nodup) :
    (l.flatMap cleanupRecordEffects).count (Eff.freeRecord rid) ≤ 1 := by
  induction l with
  | nil => simp
  | cons r rs ih =>
    simp only [List.map_cons, List.nodup_cons] at hnd
    rw [List.flatMap_cons, List.count_append,
        cleanupRecordEffects_eq_closeEffects, closeEffects_count_freeRecord]
    by_cases hr : r.handle = rid
    · rw [if_pos hr]
      have hz : (rs.flatMap cleanupRecordEffects).count (Eff.freeRecord rid) = 0 := by
        refine count_flatMap_cleanup_zero rs rid (fun t ht hteq => ?_)
        exact hnd.1 (hteq.trans hr.symm ▸ List.mem_map_of_mem (·.handle) ht)
      omega
    · rw [if_neg hr]
      have := ih hnd.2
      omega

theorem prepareLoop_fst (c : ConnState) :
    (prepareLoop c).1 = { c with pendingLocal := 0, prepared := true } := by
  obtain ⟨p, pr, da⟩ := c
  rw [prepareLoop_eq]
  by_cases h0 : p = 0
  · subst h0; simp
  · simp [h0]

theorem prepareLoop_ops_nonblocking (c : ConnState) :
    ∀ op ∈ (prepareLoop c).2, op.isBlocking = false := by
  rw [prepareLoop_eq]
  split
  · intro op hop
    simp only [List.mem_singleton] at hop
    subst hop; rfl
  · intro op hop
    simp only [List.mem_cons, List.mem_singleton, List.not_mem_nil,
      or_false] at hop
    rcases hop with rfl | rfl | rfl <;> rfl

/-! ## Claim theorems -/

/-- Claim C1: with the Notification Sink set, a record created not-focused
notifies exactly once per maximal run of consecutive activated state sets
(the count over any event sequence equals the number of maximal activated
runs); a single `state` event on an unfocused record fires exactly when the
activated flag is present (the notification is emitted by the state handler
itself, i.e. synchronously), and an already-focused record never fires,
whatever the state set. -/
theorem edge_triggered_notification (hId : Nat) (a ti : Option String)
    (sts : List (List Nat)) (st : List Nat) :
    (runStateSeq true ⟨hId, a, ti, false⟩ sts).2
        = countRuns false (sts.map activatedIn)
    ∧ (toplevel_handle_state true ⟨hId, a, ti, false⟩ st).2.length
        = (if activatedIn st then 1 else 0)
    ∧ (toplevel_handle_state true ⟨hId, a, ti, true⟩ st).2 = [] := by
  refine ⟨?_, ?_, ?_⟩
  · simpa using runStateSeq_eq_countRuns true sts ⟨hId, a, ti, false⟩ rfl
  · rw [toplevel_handle_state]
    by_cases hact : activatedIn st <;> simp [hact]
  · rw [toplevel_handle_state]
    by_cases hact : activatedIn st <;> simp [hact]

/-- Claim C2: in the connected state with no data pending on the
descriptor, `wlr_toplevel_read_events` performs no blocking operation on
any branch (in particular the poll has a zero timeout), ends by cancelling
the prepared read, and leaves the connection with no outstanding read
intent and an empty local queue, so a subsequent prepare-read succeeds. -/
theorem read_events_no_pending_data_safe (s : ModuleState) (c : ConnState)
    (hd : s.display = some c) (hda : c.dataAvailable = false) :
    (∀ op ∈ (wlr_toplevel_read_events s).2, op.isBlocking = false)
    ∧ (wlr_toplevel_read_events s).2.getLast? = some PumpOp.cancelRead
    ∧ ∃ c', (wlr_toplevel_read_events s).1.display = some c'
        ∧ c'.prepared = false ∧ c'.pendingLocal = 0
        ∧ (wl_display_prepare_read c').isSome := by
  rcases hp : prepareLoop c with ⟨c1, tr1⟩
  have hc1 : c1 = { c with pendingLocal := 0, prepared := true } := by
    have := prepareLoop_fst c
    rw [hp] at this
    exact this
  have hops : ∀ op ∈ tr1, op.isBlocking = false := by
    have := prepareLoop_ops_nonblocking c
    rw [hp] at this
    exact this
  have hda1 : c1.dataAvailable = false := by rw [hc1]; exact hda
  simp only [wlr_toplevel_read_events, hd, hp]
  rw [if_neg (by simp [hda1])]
  refine ⟨?_, ?_, ⟨{ c1 with prepared := false }, rfl, rfl, ?_, ?_⟩⟩
  · intro op hop
    rcases List.mem_append.mp hop with h1 | h2
    · exact hops op h1
    · simp only [List.mem_cons, List.mem_singleton, List.not_mem_nil,
        or_false] at h2
      rcases h2 with rfl | rfl | rfl <;> rfl
  · rw [show tr1 ++ [PumpOp.flush, PumpOp.pollDescriptor 0, PumpOp.cancelRead]
        = (tr1 ++ [PumpOp.flush, PumpOp.pollDescriptor 0]) ++ [PumpOp.cancelRead]
        from by simp]
    exact List.getLast?_concat _
  · rw [hc1]
  · rw [hc1]
    simp [wl_display_prepare_read]

/-- Claim C2 witness: a concrete connected state with no pending data. -/
theorem read_events_no_pending_data_safe_witness :
    (wlr_toplevel_read_events
        { initialState with display := some ⟨2, false, false⟩ }).2.getLast?
      = some PumpOp.cancelRead :=
  (read_events_no_pending_data_safe
    { initialState with display := some ⟨2, false, false⟩ }
    ⟨2, false, false⟩ rfl rfl).2.1

/-- Claim C3 (code bug evidence): when the compositor does not advertise
the foreign-toplevel-management global, `wlr_toplevel_init` returns false
and releases the registry and the connection, but leaves the static
`registry` pointer set (it is not reset to NULL as `display` is), so the
module is not back in the pre-init disconnected state and a subsequent
`wlr_toplevel_cleanup` destroys the already-destroyed registry a second
time: `destroyRegistry 7` occurs twice across init's and cleanup's traces. -/
theorem init_missing_manager_stale_registry :
    (wlr_toplevel_init initialState
        ⟨true, false, ⟨0, false, false⟩, 7, 9⟩).1 = false
    ∧ (wlr_toplevel_init initialState
        ⟨true, false, ⟨0, false, false⟩, 7, 9⟩).2.1.registry = some 7
    ∧ (wlr_toplevel_init initialState
        ⟨true, false, ⟨0, false, false⟩, 7, 9⟩).2.1 ≠ initialState
    ∧ ((wlr_toplevel_init initialState
          ⟨true, false, ⟨0, false, false⟩, 7, 9⟩).2.2
        ++ (wlr_toplevel_cleanup (wlr_toplevel_init initialState
              ⟨true, false, ⟨0, false, false⟩, 7, 9⟩).2.1).2).count
        (Eff.destroyRegistry 7) = 2 := by
  decide

/-- Claim C4: over every sequence of announced/closed (and field) events
from the empty registry, the registry never holds two records with the
same protocol object identity, the record struct of any identity is freed
at most once over the whole trace (so a second closed for the same
identity never double-frees), and after a closed event for any identity
the registry no longer holds it (removal completes in one pass). -/
theorem registry_identity_unique_no_double_free (cb : Bool)
    (evts : List WlEvent) (rid : Nat) :
    (regHandles (runEvents { initialState with simple_callback := cb }
        evts).1).Nodup
    ∧ (runEvents { initialState with simple_callback := cb } evts).2.count
        (Eff.freeRecord rid) ≤ 1
    ∧ rid ∉ regHandles (stepEvent
        (runEvents { initialState with simple_callback := cb } evts).1
        (.closedEv rid)).1 := by
  have hinv : Inv { initialState with simple_callback := cb } :=
    ⟨by simp [regHandles, initialState], by simp [initialState]⟩
  obtain ⟨⟨hnd, hlt⟩, hb⟩ :=
    runEvents_inv_bound evts { initialState with simple_callback := cb } rid hinv
  refine ⟨hnd, ?_, closed_removes _ _ hnd⟩
  have h1 : freeBound { initialState with simple_callback := cb } rid = 1 := by
    simp [freeBound, regHandles, initialState]
  omega

/-- Claim C5: `wlr_toplevel_cleanup` after `wlr_toplevel_cleanup` changes
nothing and releases nothing; cleanup when init was never called (the
pristine state) releases nothing; one cleanup clears the record list,
manager, registry and connection; and within one cleanup from a registry
with distinct identities, each record is freed at most once. -/
theorem cleanup_idempotent (s : ModuleState) (rid : Nat)
    (hnd : (regHandles s).Nodup) :
    wlr_toplevel_cleanup (wlr_toplevel_cleanup s).1
        = ((wlr_toplevel_cleanup s).1, [])
    ∧ (wlr_toplevel_cleanup s).1.toplevels = []
    ∧ (wlr_toplevel_cleanup s).1.toplevel_manager = none
    ∧ (wlr_toplevel_cleanup s).1.registry = none
    ∧ (wlr_toplevel_cleanup s).1.display = none
    ∧ wlr_toplevel_cleanup initialState = (initialState, [])
    ∧ (wlr_toplevel_cleanup s).2.count (Eff.freeRecord rid) ≤ 1 := by
  refine ⟨rfl, rfl, rfl, rfl, rfl, rfl, ?_⟩
  have h1 := count_flatMap_cleanup_le_one s.toplevels rid hnd
  obtain ⟨d, g, m, tl, ni, cbv⟩ := s
  cases m <;> cases g <;> cases d <;>
    simp only [wlr_toplevel_cleanup, List.count_append, List.count_cons,
      List.count_nil] <;>
    simp_all [List.count_append]

/-- Claim C5 witness: a fully initialized state with one record. -/
theorem cleanup_idempotent_witness :
    (wlr_toplevel_cleanup
        { display := some ⟨0, false, false⟩, registry := some 7,
          toplevel_manager := some 9,
          toplevels := [⟨0, some "editor", some "draft.txt", true⟩],
          nextId := 1, simple_callback := true }).2.count
      (Eff.freeRecord 0) ≤ 1 :=
  (cleanup_idempotent
    { display := some ⟨0, false, false⟩, registry := some 7,
      toplevel_manager := some 9,
      toplevels := [⟨0, some "editor", some "draft.txt", true⟩],
      nextId := 1, simple_callback := true } 0 (by decide)).2.2.2.2.2.2

/-- Claim C6: two successive `app_id` (or `title`) events leave exactly
the latest value readable; an absent value clears the field to absent; and
each update's only effect is the release of the previously owned text when
there was one (replacement is wholesale). -/
theorem field_replace_semantics (t : ToplevelRecord) (v1 v2 : Option String) :
    ((toplevel_handle_app_id (toplevel_handle_app_id t v1).1 v2).1).app_id = v2
    ∧ ((toplevel_handle_title (toplevel_handle_title t v1).1 v2).1).title = v2
    ∧ (toplevel_handle_app_id t none).1.app_id = none
    ∧ (toplevel_handle_title t none).1.title = none
    ∧ (toplevel_handle_app_id t v1).2
        = (if t.app_id.isSome then [Eff.freeAppId t.handle] else [])
    ∧ (toplevel_handle_title t v1).2
        = (if t.title.isSome then [Eff.freeTitle t.handle] else []) :=
  ⟨rfl, rfl, rfl, rfl, rfl, rfl⟩

/-- Claim C7: every Notification Sink invocation carries the record's
current `app_id` and `title` with the empty string substituted for absent
fields, and its focused flag is true; and over any whole event run, every
emitted notification has focused = true. -/
theorem notification_sink_args :
    (∀ (cb : Bool) (t : ToplevelRecord) (st : List Nat) (a b : String)
        (f : Bool), Eff.notify a b f ∈ (toplevel_handle_state cb t st).2 →
          a = t.app_id.getD "" ∧ b = t.title.getD "" ∧ f = true)
    ∧ (∀ (s : ModuleState) (evts : List WlEvent) (a b : String) (f : Bool),
        Eff.notify a b f ∈ (runEvents s evts).2 → f = true) :=
  ⟨handle_state_notify_args, runEvents_notify_focused⟩

/-- Claim C7 witness: the scenario of the tests section — app "editor",
title "draft.txt", activated state set. -/
theorem notification_sink_args_witness :
    "editor" = ((⟨0, some "editor", some "draft.txt", false⟩ :
        ToplevelRecord).app_id.getD "")
    ∧ "draft.txt" = ((⟨0, some "editor", some "draft.txt", false⟩ :
        ToplevelRecord).title.getD "")
    ∧ true = true :=
  notification_sink_args.1 true ⟨0, some "editor", some "draft.txt", false⟩
    [2] "editor" "draft.txt" true (by decide)

/-- Claim C8: a closed event for a live record removes it from the
registry (its identity is gone after one removal pass), releases exactly
its owned text, its proxy and the record struct, and since the done
handler is completely inert, this holds no matter whether a done event was
ever delivered before. -/
theorem closed_event_releases (s : ModuleState) (t : ToplevelRecord)
    (hnd : (regHandles s).Nodup) (hmem : t ∈ s.toplevels) :
    stepEvent s (.closedEv t.handle)
        = ({ s with toplevels := removeFirst s.toplevels t.handle },
           closeEffects t)
    ∧ t.handle ∉ regHandles (stepEvent s (.closedEv t.handle)).1
    ∧ ∀ (s' : ModuleState) (id : Nat), stepEvent s' (.doneEv id) = (s', []) := by
  have hfind := find?_of_mem_nodup hnd hmem
  refine ⟨?_, closed_removes s t.handle hnd, stepEvent_done⟩
  simp only [stepEvent, toplevel_handle_closed, hfind]

/-- Claim C8 witness: a registry holding one record, closed before any
done was delivered. -/
theorem closed_event_releases_witness :
    stepEvent { initialState with
        toplevels := [⟨0, some "editor", some "draft.txt", false⟩],
        nextId := 1 } (.closedEv 0)
      = ({ initialState with toplevels := [], nextId := 1 },
         [Eff.freeAppId 0, Eff.freeTitle 0, Eff.destroyHandle 0,
          Eff.freeRecord 0]) :=
  (closed_event_releases
    { initialState with
        toplevels := [⟨0, some "editor", some "draft.txt", false⟩],
        nextId := 1 }
    ⟨0, some "editor", some "draft.txt", false⟩ (by decide) (by decide)).1

/-- Claim C9: the prepare-read retry loop terminates.  In the abstract,
for any drain step that strictly shrinks nonempty pending work, the loop
exits successfully within `n` iterations when `n` events are pending; in
the concrete model, where dispatch-pending drains the whole local queue,
the loop always exits with the read intent registered, an empty local
queue, and the successful prepare as its last operation. -/
theorem prepare_read_retry_terminates :
    (∀ d : Nat → Nat, (∀ k, 0 < k → d k < k) →
        ∀ n fuel, n ≤ fuel → prepareLoopIter d fuel n = true)
    ∧ ∀ c : ConnState,
        (prepareLoop c).1.prepared = true
        ∧ (prepareLoop c).1.pendingLocal = 0
        ∧ (prepareLoop c).2.getLast? = some PumpOp.prepareReadOk := by
  constructor
  · intro d hd n
    induction n using Nat.strong_induction_on with
    | _ n ih =>
      intro fuel hf
      by_cases h0 : n = 0
      · subst h0
        cases fuel <;> simp [prepareLoopIter]
      · cases fuel with
        | zero => omega
        | succ f =>
          rw [prepareLoopIter, if_neg h0]
          exact ih (d n) (hd n (Nat.pos_of_ne_zero h0)) f
            (by have := hd n (Nat.pos_of_ne_zero h0); omega)
  · intro c
    refine ⟨?_, ?_, ?_⟩
    · rw [prepareLoop_fst]
    · rw [prepareLoop_fst]
    · rw [prepareLoop_eq]
      split <;> rfl

/-- Claim C9 witness: a strictly draining step from three pending events. -/
theorem prepare_read_retry_terminates_witness :
    prepareLoopIter (fun k => k - 1) 3 3 = true :=
  prepare_read_retry_terminates.1 (fun k => k - 1)
    (fun k hk => by show k - 1 < k; omega) 3 3 (by omega)

/-- Claim C10: `wlr_toplevel_read_events` with no connection is a no-op:
no operation is performed and the whole module state — record list,
manager, registry, callback slot included — is unchanged. -/
theorem read_events_disconnected_noop (s : ModuleState)
    (h : s.display = none) :
    wlr_toplevel_read_events s = (s, []) := by
  simp [wlr_toplevel_read_events, h]

/-- Claim C10 witness: the pristine state. -/
theorem read_events_disconnected_noop_witness :
    wlr_toplevel_read_events initialState = (initialState, []) :=
  read_events_disconnected_noop initialState rfl

end NovaBar
